import Mathlib

/-!
Verification of `generate_answer_template.py`, a question-answering agent
that plans search queries, searches an encyclopedia API, re-ranks results
by token overlap, fetches article summaries and extracts short answers.

The Python code is shallowly embedded: pure string functions become Lean
functions on `String` (viewed through `String.data : List Char`), HTTP
calls become oracle parameters returning `Except` values (an `.error`
models a raised transport/decoding exception), and the `try/except`
blocks become explicit `Except` plumbing.  Regular-expression scans are
embedded as explicit character scanners over the ASCII fragment that the
patterns use.
-/

namespace QAAgent

/-- ASCII whitespace, as stripped by Python's `str.strip()` / split by
`str.split()` and matched by the regex class in the ASCII range. -/
def wsChar (c : Char) : Bool :=
  c = ' ' || c = '\t' || c = '\n' || c = '\r' || c = '\x0b' || c = '\x0c'

/-- ASCII alphanumeric, the regex class `[A-Za-z0-9]`. -/
def alnumChar (c : Char) : Bool :=
  ('A' ≤ c && c ≤ 'Z') || ('a' ≤ c && c ≤ 'z') || ('0' ≤ c && c ≤ '9')

/-- The regex word class `\w` (ASCII fragment), used for `\b` boundaries. -/
def isWordChar (c : Char) : Bool := alnumChar c || c = '_'

/-- `[A-Z]`. -/
def upperChar (c : Char) : Bool := 'A' ≤ c && c ≤ 'Z'

/-- `[a-z]`. -/
def lowerChar (c : Char) : Bool := 'a' ≤ c && c ≤ 'z'

/-- Python `str.strip()` on a character list: drop whitespace from both
ends. -/
def stripL (l : List Char) : List Char :=
  ((l.dropWhile wsChar).reverse.dropWhile wsChar).reverse

/-- Python `str.strip()`. -/
def pyStrip (s : String) : String := String.mk (stripL s.data)

/-- Python `str.split(sep)` for a one-character separator: split at every
occurrence, keeping empty pieces. -/
def splitOnChar (sep : Char) : List Char → List (List Char)
  | [] => [[]]
  | c :: rest =>
    match splitOnChar sep rest with
    | [] => [[]]
    | h :: t => if c = sep then [] :: h :: t else (c :: h) :: t

/-- Python `sep.join(pieces)` on character lists. -/
def joinSepL (sep : List Char) : List (List Char) → List Char
  | [] => []
  | [w] => w
  | w :: ws => w ++ sep ++ joinSepL sep ws

/-- Python `" ".join(strings)`. -/
def joinSpace (l : List String) : String :=
  String.mk (joinSepL [' '] (l.map String.data))

/-- Python `str.split()` (no argument): split on whitespace runs,
discarding empty pieces.  `acc` holds the current word reversed. -/
def splitWSAux (acc : List Char) : List Char → List (List Char)
  | [] => if acc = [] then [] else [acc.reverse]
  | c :: rest =>
    if wsChar c then
      if acc = [] then splitWSAux [] rest
      else acc.reverse :: splitWSAux [] rest
    else splitWSAux (c :: acc) rest

/-- Python `str.split()` as a `String` operation. -/
def pySplitWS (s : String) : List String :=
  (splitWSAux [] s.data).map String.mk

/-- Maximal runs of alphanumeric characters, the matches of
`re.findall(r"[A-Za-z0-9]+", s)`.  `acc` holds the current run
reversed. -/
def alnumRunsAux (acc : List Char) : List Char → List (List Char)
  | [] => if acc = [] then [] else [acc.reverse]
  | c :: rest =>
    if alnumChar c then alnumRunsAux (c :: acc) rest
    else if acc = [] then alnumRunsAux [] rest
    else acc.reverse :: alnumRunsAux [] rest

def alnumRuns (l : List Char) : List (List Char) := alnumRunsAux [] l

/-- The matches of `re.findall(r'"([^"]+)"', s)`: scan for a quote, then
collect a non-empty run of non-quote characters closed by a quote.  When
the character right after an opening quote is again a quote, the match
attempt fails and that second quote starts a fresh attempt, exactly as
the regex engine rescans.  An unclosed run at the end of input yields no
match.  The state `inside = some acc` carries the reversed content
collected since the current opening quote. -/
def findQuotedAux (inside : Option (List Char)) : List Char → List (List Char)
  | [] => []
  | c :: rest =>
    match inside with
    | none => if c = '"' then findQuotedAux (some []) rest else findQuotedAux none rest
    | some acc =>
      if c = '"' then
        if acc = [] then findQuotedAux (some []) rest
        else acc.reverse :: findQuotedAux none rest
      else findQuotedAux (some (c :: acc)) rest

def findQuoted (s : String) : List String :=
  (findQuotedAux none s.data).map String.mk

/-- Alternating decomposition of a character list into maximal runs of
word characters and maximal runs of separator characters, used to embed
the `\b`-anchored entity regex. -/
inductive Chunk where
  | word (cs : List Char)
  | sep (cs : List Char)
deriving DecidableEq

/-- Build the alternating chunk list.  `acc` is the current chunk
reversed and `accW` says whether it consists of word characters. -/
def chunksAux (acc : List Char) (accW : Bool) : List Char → List Chunk
  | [] =>
    if acc = [] then []
    else if accW then [Chunk.word acc.reverse] else [Chunk.sep acc.reverse]
  | c :: rest =>
    if acc = [] then chunksAux [c] (isWordChar c) rest
    else if isWordChar c = accW then chunksAux (c :: acc) accW rest
    else if accW then Chunk.word acc.reverse :: chunksAux [c] (isWordChar c) rest
    else Chunk.sep acc.reverse :: chunksAux [c] (isWordChar c) rest

/-- A word run that matches `[A-Z][a-z]+` in full: one uppercase letter
followed by at least one lowercase letter and nothing else.  Because a
`\b` boundary must precede the uppercase letter and follow the last
lowercase letter, the matches of the capitalized-phrase regex are exactly
the maximal word runs of this shape. -/
def qualRun : List Char → Bool
  | c :: rest => upperChar c && !rest.isEmpty && rest.all lowerChar
  | [] => false

/-- Scanner state for the capitalized-phrase regex: between matches,
right after a qualifying word run, or inside a whitespace gap that may
extend the current phrase. -/
inductive CapsSt where
  | idle
  | afterWord (ph : List Char)
  | inGap (ph : List Char) (g : List Char)
deriving DecidableEq

/-- Matches of `re.findall(r"\b([A-Z][a-z]+(?:\s+[A-Z][a-z]+)*)\b", s)`
over the chunk decomposition: qualifying word runs, with consecutive
qualifying runs merged into one phrase (including the separator text)
whenever the separator between them is pure whitespace, mirroring the
greedy `(?:\s+[A-Z][a-z]+)*` repetition. -/
def capsGroupAux (st : CapsSt) : List Chunk → List (List Char)
  | [] =>
    match st with
    | .idle => []
    | .afterWord ph => [ph]
    | .inGap ph _ => [ph]
  | Chunk.word w :: rest =>
    match st with
    | .idle =>
      if qualRun w then capsGroupAux (.afterWord w) rest
      else capsGroupAux .idle rest
    | .afterWord ph =>
      -- cannot occur in an alternating chunk list; emit and restart
      ph :: (if qualRun w then capsGroupAux (.afterWord w) rest
             else capsGroupAux .idle rest)
    | .inGap ph g =>
      if qualRun w then capsGroupAux (.afterWord (ph ++ g ++ w)) rest
      else ph :: capsGroupAux .idle rest
  | Chunk.sep g :: rest =>
    match st with
    | .idle => capsGroupAux .idle rest
    | .afterWord ph =>
      if g ≠ [] && g.all wsChar then capsGroupAux (.inGap ph g) rest
      else ph :: capsGroupAux .idle rest
    | .inGap ph _ => ph :: capsGroupAux .idle rest

def findCaps (s : String) : List String :=
  (capsGroupAux .idle (chunksAux [] false s.data)).map String.mk

/-- The year pattern `1[6-9]\d\d | 20\d\d`. -/
def yearPat (c1 c2 c3 c4 : Char) : Bool :=
  ((c1 = '1' && '6' ≤ c2 && c2 ≤ '9') || (c1 = '2' && c2 = '0'))
    && ('0' ≤ c3 && c3 ≤ '9') && ('0' ≤ c4 && c4 ≤ '9')

/-- `\b` holds after a match / at a candidate end when the next character
is not a word character (or the input ends). -/
def closedAt : List Char → Bool
  | [] => true
  | c :: _ => !isWordChar c

/-- Matches of `re.findall(r"\b(1[6-9]\d{2}|20\d{2})\b", s)`.  `prevW`
records whether the previous character was a word character (for the
leading `\b`); `skip` counts characters of an accepted match that are
still to be consumed by the scan. -/
def findYearsAux (skip : Nat) (prevW : Bool) : List Char → List (List Char)
  | [] => []
  | c :: rest =>
    match skip with
    | n + 1 => findYearsAux n true rest
    | 0 =>
      match rest with
      | c2 :: c3 :: c4 :: rest4 =>
        if !prevW && yearPat c c2 c3 c4 && closedAt rest4 then
          [c, c2, c3, c4] :: findYearsAux 3 true rest
        else findYearsAux 0 (isWordChar c) rest
      | _ => findYearsAux 0 (isWordChar c) rest

def findYears (s : String) : List String :=
  (findYearsAux 0 false s.data).map String.mk

/-!  `score_candidate`: the relevance scorer. -/

/-- `set(re.findall(r"[A-Za-z0-9]+", s.lower()))`: the set of unique
lowercased alphanumeric tokens of a string.  Python's `str.lower()` is
modelled on its ASCII fragment by `Char.toLower`. -/
def tokenSet (s : String) : Finset String :=
  ((alnumRuns (s.data.map Char.toLower)).map String.mk).toFinset

/-- `score_candidate(question, title, snippet)`: cheap relevance score
based on token overlap; the `snippet` argument is `Optional` in the
source and `None` is replaced by `""` via `(snippet or "")`. -/
def score_candidate (question : String) (title : String)
    (snippet : Option String) : Nat :=
  let q_words := tokenSet question
  let t_words := tokenSet title
  let s_words := tokenSet (snippet.getD "")
  2 * (q_words ∩ t_words).card + (q_words ∩ s_words).card

/-!  `plan_queries`: the query planner. -/

/-- The fallback candidate: `" ".join(q.split()[:12]).strip()`, the first
12 whitespace-separated words of the question. -/
def shortQuery (q : String) : String :=
  pyStrip (joinSpace ((pySplitWS q).take 12))

/-- The candidate list built by `plan_queries` before de-duplication:
quoted-phrase candidate (first two quoted substrings joined), entity
candidate (up to 3 capitalized phrases plus up to 1 year), and the
12-word fallback, in that order. -/
def planCandidates (q : String) : List String :=
  let quoted := findQuoted q
  let caps := findCaps q
  let years := findYears q
  let entity_bits := caps.take 3 ++ years.take 1
  (if quoted.isEmpty then [] else [pyStrip (joinSpace (quoted.take 2))])
    ++ (if entity_bits.isEmpty then []
        else [pyStrip (joinSpace entity_bits)])
    ++ [shortQuery q]

/-- The de-duplication loop of `plan_queries`: strip each candidate,
keep it when non-empty and not seen before.  `seen` collects the kept
candidates. -/
def dedupKeepFirst : List String → List String → List String
  | [], _ => []
  | c :: rest, seen =>
    let c2 := pyStrip c
    if c2 ≠ "" ∧ c2 ∉ seen then c2 :: dedupKeepFirst rest (c2 :: seen)
    else dedupKeepFirst rest seen

/-- `plan_queries(question)`: create 2-3 progressively simpler queries
(the PLAN step).  Empty (after stripping) questions yield no candidates;
otherwise the candidates are de-duplicated preserving first occurrence
and truncated to at most 3. -/
def plan_queries (question : String) : List String :=
  let q := pyStrip question
  if q = "" then []
  else (dedupKeepFirst (planCandidates q) []).take 3

/-!  `extract_answer`: the answer extractor. -/

/-- Python `s.endswith(".")` for a character list. -/
def endsWithDot (l : List Char) : Bool := l.getLast? = some '.'

/-- `extract_answer(content, max_sentences)`: split on the literal `.`,
trim the pieces, drop the empty ones, rejoin the first `max_sentences`
with `". "` and make sure the result ends in a period; empty content or
no remaining pieces yield the sentinel. -/
def extract_answer (content : String) (max_sentences : Nat) : String :=
  if content = "" then "Information not available"
  else
    let sentences :=
      ((splitOnChar '.' content.data).map stripL).filter (fun s => s ≠ [])
    if sentences = [] then "Information not available"
    else
      let answer := stripL (joinSepL ['.', ' '] (sentences.take max_sentences))
      let answer2 :=
        if answer ≠ [] ∧ ¬ endsWithDot answer then answer ++ ['.'] else answer
      if answer2 ≠ [] then String.mk answer2 else "Information not available"

/-- The extractor algorithm as the specification words it: if content is
empty return the sentinel, otherwise split on `.`, trim, discard empty
segments (sentinel when none remain), take the first `maxSentences`
segments, rejoin with `". "` and append a trailing `.` when missing.
Stated separately from `extract_answer` so the two can be compared. -/
def extract_answer_spec_model (content : String) (maxSentences : Nat) : String :=
  if content = "" then "Information not available"
  else
    let segs :=
      ((splitOnChar '.' content.data).map stripL).filter (fun s => s ≠ [])
    if segs = [] then "Information not available"
    else
      let ans := joinSepL ['.', ' '] (segs.take maxSentences)
      if endsWithDot ans then String.mk ans else String.mk (ans ++ ['.'])

/-!  `get_question_text`: extracting the question from an input record. -/

/-- A JSON-ish Python value as far as the embedded code inspects one:
a string, a number, or `None`. -/
inductive PyVal where
  | pstr (s : String)
  | pint (n : Int)
  | pnone
deriving DecidableEq

/-- Python truthiness for the modelled values. -/
def pyTruthy : PyVal → Bool
  | .pstr s => s ≠ ""
  | .pint n => n ≠ 0
  | .pnone => false

/-- Python `a or b`. -/
def pyOr (a b : PyVal) : PyVal := if pyTruthy a then a else b

/-- Python `d.get(k)` on an association list (first binding wins),
returning `None` when the key is absent. -/
def dictGet (es : List (String × PyVal)) (k : String) : PyVal :=
  match es.find? (fun e => e.1 == k) with
  | some e => e.2
  | none => .pnone

/-- An input record: a mapping, or any non-mapping JSON value (on which
attribute access such as `.get` raises). -/
inductive QRecord where
  | dict (es : List (String × PyVal))
  | nondict
deriving DecidableEq

/-- `get_question_text(qobj)`:
`((qobj.get("input") or "") or (qobj.get("question") or "") or
  (qobj.get("prompt") or "") or (qobj.get("query") or "") or "").strip()`.
A non-mapping record makes `.get` raise `AttributeError`, and a truthy
non-string winner makes `.strip()` raise; both are modelled as
`.error`. -/
def get_question_text : QRecord → Except String String
  | .nondict => .error "AttributeError"
  | .dict es =>
    let v :=
      pyOr (pyOr (pyOr (pyOr (pyOr (dictGet es "input") (.pstr ""))
                (pyOr (dictGet es "question") (.pstr "")))
              (pyOr (dictGet es "prompt") (.pstr "")))
            (pyOr (dictGet es "query") (.pstr "")))
          (.pstr "")
    match v with
    | .pstr s => .ok (pyStrip s)
    | _ => .error "AttributeError"

/-- The extraction rule as the specification words it for mapping
records: probe `input`, `question`, `prompt`, `query` in that priority
order, take the first non-empty string value, default to the empty
string, and trim.  Stated separately so it can be compared with
`get_question_text`. -/
def question_text_spec_model (es : List (String × PyVal)) : String :=
  pyStrip
    (match ["input", "question", "prompt", "query"].findSome?
        (fun k =>
          match dictGet es k with
          | .pstr s => if s = "" then none else some s
          | _ => none) with
      | some s => s
      | none => "")

/-!  The search client, summary fetcher and agent loop.  HTTP traffic is
an oracle parameter: `Except.error` models a raised transport / HTTP /
decoding exception, `Except.ok` a decoded JSON body.  Optional JSON
fields are `Option`s, matching the `.get` defaults of the source. -/

/-- One entry of `query.search` as the code reads it: `title`, `pageid`
and `snippet` are all accessed with defaults and may be absent. -/
structure SearchResult where
  title : Option String
  pageid : Option Int
  snippet : Option String
deriving DecidableEq

/-- One element of the search-result list: a JSON object, or any other
JSON value (on which `r.get(...)` raises `AttributeError`). -/
inductive SearchItem where
  | obj (r : SearchResult)
  | other
deriving DecidableEq

/-- The `query` member of a search response; `search` may be absent
(`.get("search", [])`). -/
structure SearchQueryVal where
  search : Option (List SearchItem)
deriving DecidableEq

/-- A decoded search response body; `query` may be absent
(`.get("query", {})`). -/
structure SearchData where
  query : Option SearchQueryVal
deriving DecidableEq

/-- `search_wikipedia(query, limit)`: perform the search request and
return `data.get("query", {}).get("search", [])`; any exception is
caught and yields the empty list. -/
def search_wikipedia (http : String → Nat → Except String SearchData)
    (query : String) (limit : Nat) : List SearchItem :=
  match http query limit with
  | .error _ => []
  | .ok data => ((data.query.getD ⟨none⟩).search.getD [])

/-- One value of `query.pages` as the code reads it: `extract` may be
absent. -/
structure PageVal where
  extract : Option String
deriving DecidableEq

/-- The `query` member of a summary response; `pages` may be absent and
`next(iter(pages.values()))` takes the first entry. -/
structure SummaryQueryVal where
  pages : Option (List PageVal)
deriving DecidableEq

/-- A decoded summary response body. -/
structure SummaryData where
  query : Option SummaryQueryVal
deriving DecidableEq

/-- `get_wikipedia_summary(pageid)`: fetch the intro extract by pageid;
`(page.get("extract", "") or "").strip()` with every failure caught and
returned as the empty string. -/
def get_wikipedia_summary (http : Int → Except String SummaryData)
    (pageid : Int) : String :=
  match http pageid with
  | .error _ => ""
  | .ok data =>
    let pages := (data.query.getD ⟨none⟩).pages.getD []
    let page := pages.head?.getD ⟨none⟩
    pyStrip (page.extract.getD "")

/-- The sort key of the agent loop's re-ranking:
`score_candidate(q, r.get("title", ""), r.get("snippet", ""))`. -/
def scoreKey (q : String) (r : SearchResult) : Nat :=
  score_candidate q (r.title.getD "") (some (r.snippet.getD ""))

/-- Insert an element into a descending-sorted list, after every element
with a strictly larger key and before every element with a smaller or
equal key (the element being inserted precedes, in arrival order, the
list it is inserted into). -/
def insertDesc (key : α → Nat) (x : α) : List α → List α
  | [] => [x]
  | y :: rest =>
    if key x < key y then y :: insertDesc key x rest else x :: y :: rest

/-- Python's `sorted(l, key=key, reverse=True)`: the stable descending
sort, realised as insertion sort.  Stability, sortedness and
permutation, proved below, characterise the output uniquely, so any
stable sorting algorithm gives the same list. -/
def pySortDesc (key : α → Nat) : List α → List α
  | [] => []
  | x :: rest => insertDesc key x (pySortDesc key rest)

/-- Reading the fields of one search-result list element: `r.get(...)`
raises `AttributeError` on anything that is not an object. -/
def getFields : SearchItem → Except String SearchResult
  | .obj r => Except.ok r
  | .other => Except.error "AttributeError"

/-- The OBSERVE re-rank step:
`sorted(results, key=lambda r: score_candidate(...), reverse=True)`.
`sorted` computes the key of every element (in arrival order) before
sorting, so a non-object element raises before any comparison. -/
def rankResults (q : String) (results : List SearchItem) :
    Except String (List SearchResult) :=
  match results.mapM getFields with
  | .error e => .error e
  | .ok rs => .ok (pySortDesc (scoreKey q) rs)

/-- One iteration of the agent loop for one candidate query: search,
re-rank, pick the top result, skip on missing/zero pageid, fetch the
summary, extract, and accept the answer unless it is the sentinel.
`.ok none` is the `continue` outcome, `.ok (some a)` the accepting
`break`, `.error` an exception escaping to the loop boundary. -/
def tryCandidate (httpS : String → Nat → Except String SearchData)
    (httpF : Int → Except String SummaryData)
    (q : String) (search_q : String) : Except String (Option String) :=
  let results := search_wikipedia httpS search_q 6
  if results.isEmpty then .ok none
  else
    match rankResults q results with
    | .error e => .error e
    | .ok [] => .error "IndexError"
    | .ok (top :: _) =>
      match top.pageid with
      | none => .ok none
      | some pid =>
        if pid = 0 then .ok none
        else
          let content := get_wikipedia_summary httpF pid
          let answer := extract_answer content 2
          if answer = "Information not available" then .ok none
          else .ok (some answer)

/-- The candidate loop of `agent_loop`.  The first component is the
loop's outcome (accepted answer, exhaustion, or escaped exception); the
second records the candidate queries actually searched, in order — the
loop's observable effect trace, kept even when an exception escapes. -/
def loopSteps (httpS : String → Nat → Except String SearchData)
    (httpF : Int → Except String SummaryData)
    (q : String) : List String → Except String (Option String) × List String
  | [] => (.ok none, [])
  | c :: rest =>
    match tryCandidate httpS httpF q c with
    | .error e => (.error e, [c])
    | .ok (some a) => (.ok (some a), [c])
    | .ok none =>
      let (res, t) := loopSteps httpS httpF q rest
      (res, c :: t)

/-- The body of `agent_loop` inside its `try`: strip the question,
short-circuit when empty, plan, and run the candidate loop;
`best_answer` starts out as `""` and the final return is
`best_answer if best_answer else "Information not available"`. -/
def agent_loop_body (httpS : String → Nat → Except String SearchData)
    (httpF : Int → Except String SummaryData)
    (question : String) : Except String String :=
  let q := pyStrip question
  if q = "" then .ok "Information not available"
  else
    let plans := plan_queries q
    match (loopSteps httpS httpF q plans).1 with
    | .error e => .error e
    | .ok (some a) => .ok (if a ≠ "" then a else "Information not available")
    | .ok none => .ok "Information not available"

/-- `agent_loop(question)`: the PLAN/ACT/OBSERVE/REFLECT controller.
Any exception escaping the body is caught at the loop boundary and
converted to the `"Error processing question"` sentinel. -/
def agent_loop (httpS : String → Nat → Except String SearchData)
    (httpF : Int → Except String SummaryData)
    (question : String) : String :=
  match agent_loop_body httpS httpF question with
  | .ok ans => ans
  | .error _ => "Error processing question"

/-!  ## Lemmas about stripping -/

theorem dropWhile_head_false {p : Char → Bool} :
    ∀ (l : List Char) {c : Char} {t : List Char},
      l.dropWhile p = c :: t → p c = false := by
  intro l
  induction l with
  | nil => intro c t h; simp at h
  | cons a rest ih =>
    intro c t h
    rw [List.dropWhile_cons] at h
    by_cases hp : p a = true
    · rw [if_pos hp] at h; exact ih h
    · rw [if_neg hp] at h
      cases h
      exact Bool.eq_false_iff.mpr hp

theorem stripL_head_not_ws {l : List Char} {c : Char} {t : List Char}
    (h : stripL l = c :: t) : wsChar c = false := by
  unfold stripL at h
  obtain ⟨w, hw⟩ :=
    List.dropWhile_suffix (l := (l.dropWhile wsChar).reverse) wsChar
  have hX : (l.dropWhile wsChar).reverse.dropWhile wsChar = (c :: t).reverse := by
    have := congrArg List.reverse h
    simpa using this
  rw [hX] at hw
  have hd : l.dropWhile wsChar = c :: (t ++ w.reverse) := by
    have := congrArg List.reverse hw
    simp at this
    exact this.symm
  exact dropWhile_head_false l hd

theorem stripL_getLast_not_ws {l : List Char} {d : Char}
    (h : (stripL l).getLast? = some d) : wsChar d = false := by
  unfold stripL at h
  rw [List.getLast?_reverse] at h
  cases hX : (l.dropWhile wsChar).reverse.dropWhile wsChar with
  | nil => rw [hX] at h; simp at h
  | cons a t =>
    rw [hX] at h
    simp at h
    rw [← h]
    exact dropWhile_head_false _ hX

theorem dropWhile_eq_self_of_head {p : Char → Bool} {l : List Char} {c : Char}
    (hh : l.head? = some c) (hc : p c = false) : l.dropWhile p = l := by
  cases l with
  | nil => rfl
  | cons a t =>
    simp at hh
    rw [List.dropWhile_cons, hh, hc]
    simp

theorem stripL_eq_self {l : List Char} {c d : Char}
    (hh : l.head? = some c) (hc : wsChar c = false)
    (hl : l.getLast? = some d) (hd : wsChar d = false) : stripL l = l := by
  unfold stripL
  rw [dropWhile_eq_self_of_head hh hc]
  have hrev : l.reverse.head? = some d := by rw [List.head?_reverse]; exact hl
  rw [dropWhile_eq_self_of_head hrev hd, List.reverse_reverse]

theorem stripL_idem (l : List Char) : stripL (stripL l) = stripL l := by
  cases h : stripL l with
  | nil => simp [stripL]
  | cons c t =>
    have hc := stripL_head_not_ws h
    have hne : stripL l ≠ [] := by rw [h]; simp
    obtain ⟨d, hd⟩ := Option.isSome_iff_exists.mp (List.getLast?_isSome.mpr hne)
    have hdws := stripL_getLast_not_ws hd
    rw [h] at hd
    exact stripL_eq_self (by simp) hc hd hdws

theorem pyStrip_idem (s : String) : pyStrip (pyStrip s) = pyStrip s := by
  unfold pyStrip
  exact congrArg String.mk (stripL_idem s.data)

theorem stripL_eq_nil_iff {l : List Char} :
    stripL l = [] ↔ ∀ c ∈ l, wsChar c = true := by
  unfold stripL
  constructor
  · intro h c hc
    have h1 : (l.dropWhile wsChar).reverse.dropWhile wsChar = [] := by
      have := congrArg List.reverse h
      simpa using this
    have h2 : ∀ x ∈ l.dropWhile wsChar, wsChar x = true := by
      intro x hx
      exact List.dropWhile_eq_nil_iff.mp h1 x (List.mem_reverse.mpr hx)
    have h3 : ∀ x ∈ l.takeWhile wsChar, wsChar x = true := fun x hx =>
      List.mem_takeWhile_imp hx
    have : c ∈ l.takeWhile wsChar ++ l.dropWhile wsChar := by
      rw [List.takeWhile_append_dropWhile]; exact hc
    rcases List.mem_append.mp this with h' | h'
    · exact h3 c h'
    · exact h2 c h'
  · intro h
    have h1 : l.dropWhile wsChar = [] := List.dropWhile_eq_nil_iff.mpr h
    rw [h1]
    rfl

theorem stripL_ne_nil {l : List Char} {c : Char} (hc : c ∈ l)
    (hw : wsChar c = false) : stripL l ≠ [] := by
  intro h
  rw [stripL_eq_nil_iff] at h
  rw [h c hc] at hw
  exact Bool.true_eq_false.mp hw

/-- A string literal equals `String.mk` of its characters, so `String.mk
l = ""` forces `l = []`. -/
theorem string_mk_ne_empty {l : List Char} (h : l ≠ []) : String.mk l ≠ "" := by
  intro he
  exact h (congrArg String.data he)

theorem pyStrip_ne_empty {s : String} {c : Char} (hc : c ∈ s.data)
    (hw : wsChar c = false) : pyStrip s ≠ "" :=
  string_mk_ne_empty (stripL_ne_nil hc hw)

/-!  ## Lemmas about whitespace splitting and joining -/

theorem splitWSAux_ne_nil_of_acc {acc : List Char} (h : acc ≠ []) :
    ∀ l, splitWSAux acc l ≠ [] := by
  intro l
  induction l generalizing acc with
  | nil => simp [splitWSAux, h]
  | cons c rest ih =>
    unfold splitWSAux
    by_cases hw : wsChar c = true
    · rw [if_pos hw, if_neg h]
      simp
    · rw [if_neg hw]
      exact ih (by simp)

theorem splitWSAux_ne_nil {c : Char} (hw : wsChar c = false) :
    ∀ (l acc : List Char), c ∈ l → splitWSAux acc l ≠ [] := by
  intro l
  induction l with
  | nil => intro acc h; simp at h
  | cons a rest ih =>
    intro acc hmem
    unfold splitWSAux
    by_cases ha : wsChar a = true
    · have hcr : c ∈ rest := by
        rcases List.mem_cons.mp hmem with h | h
        · subst h; rw [ha] at hw; simp at hw
        · exact h
      rw [if_pos ha]
      by_cases hacc : acc = []
      · rw [if_pos hacc]; exact ih [] hcr
      · rw [if_neg hacc]; simp
    · rw [if_neg ha]
      exact splitWSAux_ne_nil_of_acc (by simp) rest

theorem splitWSAux_words :
    ∀ (l acc : List Char), (∀ c ∈ acc, wsChar c = false) →
      ∀ w ∈ splitWSAux acc l, w ≠ [] ∧ ∀ c ∈ w, wsChar c = false := by
  intro l
  induction l with
  | nil =>
    intro acc hacc w hw
    unfold splitWSAux at hw
    by_cases h : acc = []
    · rw [if_pos h] at hw; simp at hw
    · rw [if_neg h] at hw
      simp at hw
      subst hw
      refine ⟨by simpa using h, ?_⟩
      intro c hc
      exact hacc c (List.mem_reverse.mp hc)
  | cons a rest ih =>
    intro acc hacc w hw
    unfold splitWSAux at hw
    by_cases ha : wsChar a = true
    · rw [if_pos ha] at hw
      by_cases hacc0 : acc = []
      · rw [if_pos hacc0] at hw
        exact ih [] (by simp) w hw
      · rw [if_neg hacc0] at hw
        rcases List.mem_cons.mp hw with h | h
        · subst h
          refine ⟨by simpa using hacc0, ?_⟩
          intro c hc
          exact hacc c (List.mem_reverse.mp hc)
        · exact ih [] (by simp) w h
    · rw [if_neg ha] at hw
      refine ih (a :: acc) ?_ w hw
      intro c hc
      rcases List.mem_cons.mp hc with h | h
      · subst h; simpa using ha
      · exact hacc c h

/-!  ## Lemmas about `joinSepL` -/

theorem joinSepL_ne_nil {sep : List Char} {w : List Char} (h : w ≠ []) :
    ∀ ws, joinSepL sep (w :: ws) ≠ [] := by
  intro ws
  cases ws with
  | nil => simpa [joinSepL] using h
  | cons w2 rest =>
    show w ++ sep ++ joinSepL sep (w2 :: rest) ≠ []
    simp [h]

theorem joinSepL_head? {sep : List Char} {w : List Char} (ws : List (List Char)) :
    w ≠ [] → (joinSepL sep (w :: ws)).head? = w.head? := by
  intro h
  cases ws with
  | nil => rfl
  | cons w2 rest =>
    show (w ++ sep ++ joinSepL sep (w2 :: rest)).head? = w.head?
    cases w with
    | nil => exact absurd rfl h
    | cons c t => simp

theorem joinSepL_getLast? {sep : List Char} :
    ∀ (ws : List (List Char)) (w : List Char), ws ≠ [] →
      (∀ u ∈ ws, u ≠ []) → ws.getLast? = some w →
      (joinSepL sep ws).getLast? = w.getLast? := by
  intro ws
  induction ws with
  | nil => intro w h; simp at h
  | cons w0 rest ih =>
    intro w _ hne hlast
    cases rest with
    | nil =>
      simp at hlast
      subst hlast
      rfl
    | cons w1 rest2 =>
      have hlast2 : (w1 :: rest2).getLast? = some w := by
        rw [List.getLast?_cons_cons] at hlast
        exact hlast
      have hjoin : joinSepL sep (w0 :: w1 :: rest2)
          = w0 ++ sep ++ joinSepL sep (w1 :: rest2) := rfl
      rw [hjoin]
      have hj2 : joinSepL sep (w1 :: rest2) ≠ [] :=
        joinSepL_ne_nil (hne w1 (by simp)) rest2
      have ihr := ih w (by simp) (fun u hu => hne u (List.mem_cons_of_mem _ hu))
        hlast2
      rw [List.getLast?_append]
      rw [ihr]
      have : w.getLast? ≠ none := by
        have hwne : w ≠ [] := by
          refine hne w ?_
          have := List.mem_of_mem_getLast? (l := w1 :: rest2) hlast2
          exact List.mem_cons_of_mem _ this
        simpa [List.getLast?_isSome] using
          Option.isSome_iff_ne_none.mp (List.getLast?_isSome.mpr hwne)
      cases hw : w.getLast? with
      | none => exact absurd hw this
      | some d => rfl

/-!  ## Lemmas about the stable descending sort -/

theorem insertDesc_perm (key : α → Nat) (x : α) :
    ∀ l, List.Perm (insertDesc key x l) (x :: l) := by
  intro l
  induction l with
  | nil => simp [insertDesc]
  | cons y rest ih =>
    unfold insertDesc
    by_cases h : key x < key y
    · rw [if_pos h]
      exact (List.Perm.cons y ih).trans (List.Perm.swap x y rest)
    · rw [if_neg h]

theorem pySortDesc_perm (key : α → Nat) :
    ∀ l, List.Perm (pySortDesc key l) l := by
  intro l
  induction l with
  | nil => simp [pySortDesc]
  | cons x rest ih =>
    unfold pySortDesc
    exact (insertDesc_perm key x (pySortDesc key rest)).trans
      (List.Perm.cons x ih)

theorem insertDesc_pairwise (key : α → Nat) (x : α) :
    ∀ l, List.Pairwise (fun a b => key b ≤ key a) l →
      List.Pairwise (fun a b => key b ≤ key a) (insertDesc key x l) := by
  intro l
  induction l with
  | nil => intro _; simp [insertDesc]
  | cons y rest ih =>
    intro hp
    rcases List.pairwise_cons.mp hp with ⟨hy, hrest⟩
    unfold insertDesc
    by_cases h : key x < key y
    · rw [if_pos h]
      refine List.Pairwise.cons ?_ (ih hrest)
      intro z hz
      have hz2 : z ∈ x :: rest := (insertDesc_perm key x rest).mem_iff.mp hz
      rcases List.mem_cons.mp hz2 with h' | h'
      · subst h'; exact Nat.le_of_lt h
      · exact hy z h'
    · rw [if_neg h]
      refine List.Pairwise.cons ?_ hp
      intro z hz
      rcases List.mem_cons.mp hz with h' | h'
      · subst h'; exact Nat.le_of_not_lt h
      · exact Nat.le_trans (hy z h') (Nat.le_of_not_lt h)

theorem pySortDesc_pairwise (key : α → Nat) :
    ∀ l, List.Pairwise (fun a b => key b ≤ key a) (pySortDesc key l) := by
  intro l
  induction l with
  | nil => simp [pySortDesc]
  | cons x rest ih =>
    exact insertDesc_pairwise key x (pySortDesc key rest) ih

theorem insertDesc_filter (key : α → Nat) (v : Nat) (x : α) :
    ∀ l, List.Pairwise (fun a b => key b ≤ key a) l →
      (insertDesc key x l).filter (fun r => key r == v)
        = if key x = v then x :: l.filter (fun r => key r == v)
          else l.filter (fun r => key r == v) := by
  intro l
  induction l with
  | nil =>
    intro _
    by_cases h : key x = v
    · rw [if_pos h]; simp [insertDesc, List.filter_cons, h]
    · rw [if_neg h]; simp [insertDesc, List.filter_cons, h]
  | cons y rest ih =>
    intro hp
    rcases List.pairwise_cons.mp hp with ⟨hy, hrest⟩
    unfold insertDesc
    by_cases h : key x < key y
    · rw [if_pos h]
      rw [List.filter_cons, List.filter_cons]
      by_cases hyv : (key y == v) = true
      · -- key y = v and key x < key y, so key x ≠ v
        have hxv : key x ≠ v := by
          intro hx
          have : key y = v := by simpa using hyv
          omega
        rw [if_pos hyv, if_pos hyv, ih hrest, if_neg hxv, if_neg hxv]
      · rw [if_neg hyv, if_neg hyv, ih hrest]
    · rw [if_neg h]
      rw [List.filter_cons]
      by_cases hxv : key x = v
      · rw [if_pos hxv]
        have : (key x == v) = true := by simpa using hxv
        rw [if_pos this]
      · rw [if_neg hxv]
        have : (key x == v) = false := by simpa using hxv
        rw [if_neg (by simp [this])]

theorem pySortDesc_filter (key : α → Nat) (v : Nat) :
    ∀ l, (pySortDesc key l).filter (fun r => key r == v)
      = l.filter (fun r => key r == v) := by
  intro l
  induction l with
  | nil => rfl
  | cons x rest ih =>
    unfold pySortDesc
    rw [insertDesc_filter key v x _ (pySortDesc_pairwise key rest), ih,
      List.filter_cons]
    by_cases h : key x = v
    · rw [if_pos h, if_pos (by simpa using h)]
    · rw [if_neg h, if_neg (by simp [h])]

/-!  ## Lemmas about the planner's de-duplication loop -/

theorem dedupKeepFirst_sublist :
    ∀ (l seen : List String),
      List.Sublist (dedupKeepFirst l seen) (l.map pyStrip) := by
  intro l
  induction l with
  | nil => intro seen; simp [dedupKeepFirst]
  | cons c rest ih =>
    intro seen
    unfold dedupKeepFirst
    by_cases h : pyStrip c ≠ "" ∧ pyStrip c ∉ seen
    · rw [if_pos h]
      exact List.Sublist.cons₂ _ (ih _)
    · rw [if_neg h]
      exact List.Sublist.cons _ (ih _)

theorem dedupKeepFirst_not_seen :
    ∀ (l seen : List String) (c : String),
      c ∈ dedupKeepFirst l seen → c ∉ seen := by
  intro l
  induction l with
  | nil => intro seen c h; simp [dedupKeepFirst] at h
  | cons a rest ih =>
    intro seen c h
    unfold dedupKeepFirst at h
    by_cases ha : pyStrip a ≠ "" ∧ pyStrip a ∉ seen
    · rw [if_pos ha] at h
      rcases List.mem_cons.mp h with h' | h'
      · subst h'; exact ha.2
      · have := ih (pyStrip a :: seen) c h'
        intro hc
        exact this (List.mem_cons_of_mem _ hc)
    · rw [if_neg ha] at h
      exact ih seen c h

theorem dedupKeepFirst_nodup :
    ∀ (l seen : List String), (dedupKeepFirst l seen).Nodup := by
  intro l
  induction l with
  | nil => intro seen; simp [dedupKeepFirst]
  | cons a rest ih =>
    intro seen
    unfold dedupKeepFirst
    by_cases ha : pyStrip a ≠ "" ∧ pyStrip a ∉ seen
    · rw [if_pos ha]
      refine List.nodup_cons.mpr ⟨?_, ih _⟩
      intro hmem
      exact dedupKeepFirst_not_seen rest _ _ hmem (by simp)
    · rw [if_neg ha]
      exact ih seen

theorem dedupKeepFirst_mem_props :
    ∀ (l seen : List String) (c : String), c ∈ dedupKeepFirst l seen →
      c ≠ "" ∧ ∃ t ∈ l, c = pyStrip t := by
  intro l
  induction l with
  | nil => intro seen c h; simp [dedupKeepFirst] at h
  | cons a rest ih =>
    intro seen c h
    unfold dedupKeepFirst at h
    by_cases ha : pyStrip a ≠ "" ∧ pyStrip a ∉ seen
    · rw [if_pos ha] at h
      rcases List.mem_cons.mp h with h' | h'
      · subst h'
        exact ⟨ha.1, a, by simp⟩
      · obtain ⟨hne, t, ht, hts⟩ := ih _ c h'
        exact ⟨hne, t, List.mem_cons_of_mem _ ht, hts⟩
    · rw [if_neg ha] at h
      obtain ⟨hne, t, ht, hts⟩ := ih _ c h
      exact ⟨hne, t, List.mem_cons_of_mem _ ht, hts⟩

theorem dedupKeepFirst_mem :
    ∀ (l seen : List String) (c : String), c ∈ l → pyStrip c ≠ "" →
      pyStrip c ∈ dedupKeepFirst l seen ∨ pyStrip c ∈ seen := by
  intro l
  induction l with
  | nil => intro seen c h; simp at h
  | cons a rest ih =>
    intro seen c hmem hne
    unfold dedupKeepFirst
    by_cases ha : pyStrip a ≠ "" ∧ pyStrip a ∉ seen
    · rw [if_pos ha]
      rcases List.mem_cons.mp hmem with h | h
      · subst h; left; simp
      · rcases ih (pyStrip a :: seen) c h hne with h' | h'
        · left; exact List.mem_cons_of_mem _ h'
        · rcases List.mem_cons.mp h' with h'' | h''
          · left; rw [h'']; simp
          · right; exact h''
    · rw [if_neg ha]
      rcases List.mem_cons.mp hmem with h | h
      · subst h
        rcases Decidable.not_and_iff_or_not.mp ha with h' | h'
        · exact absurd hne (by simpa using h')
        · right; simpa using h'
      · exact ih seen c h hne

theorem dedupKeepFirst_length :
    ∀ (l seen : List String), (dedupKeepFirst l seen).length ≤ l.length :=
  fun l seen =>
    Nat.le_trans (List.Sublist.length_le (dedupKeepFirst_sublist l seen))
      (by simp)

theorem planCandidates_length (q : String) : (planCandidates q).length ≤ 3 := by
  unfold planCandidates
  by_cases h1 : (findQuoted q).isEmpty
  · by_cases h2 : ((findCaps q).take 3 ++ (findYears q).take 1).isEmpty
    · simp [h1, h2]
    · simp [h1, h2]
  · by_cases h2 : ((findCaps q).take 3 ++ (findYears q).take 1).isEmpty
    · simp [h1, h2]
    · simp [h1, h2]

/-!  ## Lemmas about the extractor and the loop -/

/-- Every `extract_answer` output is the sentinel or a non-empty string
ending in a period. -/
theorem extract_answer_cases (content : String) (m : Nat) :
    extract_answer content m = "Information not available"
      ∨ (extract_answer content m ≠ ""
          ∧ endsWithDot (extract_answer content m).data = true) := by
  unfold extract_answer
  by_cases h1 : content = ""
  · rw [if_pos h1]; left; rfl
  · rw [if_neg h1]
    by_cases h2 : ((splitOnChar '.' content.data).map stripL).filter
        (fun s => s ≠ []) = []
    · rw [if_pos h2]; left; rfl
    · rw [if_neg h2]
      dsimp only
      set answer := stripL (joinSepL ['.', ' ']
        ((((splitOnChar '.' content.data).map stripL).filter
          (fun s => s ≠ [])).take m)) with ha
      by_cases h3 : answer ≠ [] ∧ ¬ endsWithDot answer
      · rw [if_pos h3]
        have hne : answer ++ ['.'] ≠ [] := by simp
        rw [if_pos hne]
        right
        refine ⟨string_mk_ne_empty hne, ?_⟩
        show endsWithDot (String.mk (answer ++ ['.'])).data = true
        show endsWithDot (answer ++ ['.']) = true
        unfold endsWithDot
        rw [List.getLast?_concat]
        simp
      · rw [if_neg h3]
        by_cases h4 : answer ≠ []
        · rw [if_pos h4]
          right
          refine ⟨string_mk_ne_empty h4, ?_⟩
          show endsWithDot answer = true
          rcases Decidable.not_and_iff_or_not.mp h3 with h | h
          · exact absurd h4 h
          · simpa using h
        · rw [if_neg h4]; left; rfl

/-- A successful `tryCandidate` outcome is a non-sentinel extraction of
some fetched summary. -/
theorem tryCandidate_ok_some {httpS : String → Nat → Except String SearchData}
    {httpF : Int → Except String SummaryData} {q c a : String}
    (h : tryCandidate httpS httpF q c = .ok (some a)) :
    a ≠ "Information not available"
      ∧ ∃ pid, a = extract_answer (get_wikipedia_summary httpF pid) 2 := by
  unfold tryCandidate at h
  by_cases h1 : (search_wikipedia httpS c 6).isEmpty
  · rw [if_pos h1] at h; simp at h
  · rw [if_neg h1] at h
    cases h2 : rankResults q (search_wikipedia httpS c 6) with
    | error e => rw [h2] at h; simp at h
    | ok rs =>
      rw [h2] at h
      cases rs with
      | nil => simp at h
      | cons top rest =>
        simp only at h
        cases h3 : top.pageid with
        | none => rw [h3] at h; simp at h
        | some pid =>
          rw [h3] at h
          simp only at h
          by_cases h4 : pid = 0
          · rw [if_pos h4] at h; simp at h
          · rw [if_neg h4] at h
            by_cases h5 : extract_answer (get_wikipedia_summary httpF pid) 2
                = "Information not available"
            · rw [if_pos h5] at h; simp at h
            · rw [if_neg h5] at h
              simp at h
              subst h
              exact ⟨h5, pid, rfl⟩

/-- A loop run that accepts an answer accepts a non-sentinel extraction
of some fetched summary. -/
theorem loopSteps_ok_some {httpS : String → Nat → Except String SearchData}
    {httpF : Int → Except String SummaryData} {q a : String} :
    ∀ {l : List String}, (loopSteps httpS httpF q l).1 = .ok (some a) →
      a ≠ "Information not available"
        ∧ ∃ pid, a = extract_answer (get_wikipedia_summary httpF pid) 2 := by
  intro l
  induction l with
  | nil => intro h; simp [loopSteps] at h
  | cons c rest ih =>
    intro h
    unfold loopSteps at h
    cases h1 : tryCandidate httpS httpF q c with
    | error e => rw [h1] at h; simp at h
    | ok o =>
      cases o with
      | some a2 =>
        rw [h1] at h
        simp at h
        subst h
        exact tryCandidate_ok_some h1
      | none =>
        rw [h1] at h
        simp only at h
        exact ih h

/-- A loop over a non-empty plan always searches its first candidate. -/
theorem loopSteps_trace_ne_nil {httpS : String → Nat → Except String SearchData}
    {httpF : Int → Except String SummaryData} {q : String} {l : List String}
    (h : l ≠ []) : (loopSteps httpS httpF q l).2 ≠ [] := by
  cases l with
  | nil => exact absurd rfl h
  | cons c rest =>
    unfold loopSteps
    cases h1 : tryCandidate httpS httpF q c with
    | error e => simp
    | ok o => cases o with
      | some a => simp
      | none => simp

/-- When every search comes back empty, every candidate is skipped. -/
theorem loopSteps_all_empty {httpS : String → Nat → Except String SearchData}
    {httpF : Int → Except String SummaryData} {q : String}
    (hS : ∀ c, search_wikipedia httpS c 6 = []) :
    ∀ l, (loopSteps httpS httpF q l).1 = .ok none := by
  intro l
  induction l with
  | nil => rfl
  | cons c rest ih =>
    unfold loopSteps
    have h1 : tryCandidate httpS httpF q c = .ok none := by
      unfold tryCandidate
      rw [hS c]
      rfl
    rw [h1]
    simp only
    exact ih

/-- The loop skips rejected candidates one by one, and stops at the first
accepted one: the outcome and the searched trace are independent of the
candidates after it. -/
theorem loopSteps_first_accept
    {httpS : String → Nat → Except String SearchData}
    {httpF : Int → Except String SummaryData} {q c a : String}
    {pre : List String}
    (hpre : ∀ p ∈ pre, tryCandidate httpS httpF q p = .ok none)
    (hc : tryCandidate httpS httpF q c = .ok (some a)) :
    ∀ post, loopSteps httpS httpF q (pre ++ c :: post)
      = (.ok (some a), pre ++ [c]) := by
  induction pre with
  | nil =>
    intro post
    show loopSteps httpS httpF q (c :: post) = (.ok (some a), [c])
    unfold loopSteps
    rw [hc]
  | cons p pre2 ih =>
    intro post
    have hp : tryCandidate httpS httpF q p = .ok none := hpre p (by simp)
    have hrest := ih (fun x hx => hpre x (List.mem_cons_of_mem _ hx)) post
    show loopSteps httpS httpF q (p :: (pre2 ++ c :: post))
      = (.ok (some a), p :: (pre2 ++ [c]))
    unfold loopSteps
    rw [hp]
    simp only
    rw [hrest]

/-- Reading the fields of a list of well-formed result objects never
raises. -/
theorem mapM_getFields_obj :
    ∀ rs : List SearchResult,
      (rs.map SearchItem.obj).mapM getFields = Except.ok rs := by
  intro rs
  induction rs with
  | nil => rfl
  | cons r rest ih =>
    rw [List.map_cons, List.mapM_cons, ih]
    rfl

/-!  ## Lemmas about `get_question_text` -/

/-- Under a string-valued record, each probe yields a string value or
`None`. -/
theorem dictGet_str_or_none {es : List (String × PyVal)}
    (hstr : ∀ p ∈ es, ∃ s, p.2 = PyVal.pstr s) (k : String) :
    (∃ s, dictGet es k = PyVal.pstr s) ∨ dictGet es k = PyVal.pnone := by
  unfold dictGet
  cases hf : es.find? (fun e => e.1 == k) with
  | none => right; rfl
  | some e =>
    left
    obtain ⟨s, hs⟩ := hstr e (List.mem_of_find?_eq_some hf)
    exact ⟨s, hs⟩

/-!  ## Claim theorems -/

/-- C3 (counterexample): with `maxSentences = 0` and non-empty content
with segments, `extract_answer` returns the sentinel while the specified
algorithm returns `"."`, so the claimed characterisation fails on that
input. -/
theorem extract_answer_spec_zero_counterexample :
    extract_answer "A" 0 = "Information not available"
    ∧ extract_answer_spec_model "A" 0 = "."
    ∧ extract_answer "A" 0 ≠ extract_answer_spec_model "A" 0 := by
  refine ⟨rfl, rfl, ?_⟩
  intro h
  exact absurd (congrArg String.data h) (by decide)

/-- C3 (amended): for `maxSentences ≥ 1`, `extract_answer` agrees with
the specified algorithm — sentinel on empty content or no non-empty
trimmed segments, otherwise the first `maxSentences` trimmed segments
rejoined with `". "` and period-terminated; in particular
`extract_answer "" 2` is the sentinel and
`extract_answer "A. B. C. D." 2 = "A. B."`. -/
theorem extract_answer_spec_correspondence :
    (∀ (content : String) (m : Nat), 1 ≤ m →
      extract_answer content m = extract_answer_spec_model content m)
    ∧ extract_answer "" 2 = "Information not available"
    ∧ extract_answer "A. B. C. D." 2 = "A. B." := by
  refine ⟨?_, rfl, rfl⟩
  intro content m hm
  unfold extract_answer extract_answer_spec_model
  by_cases h1 : content = ""
  · rw [if_pos h1, if_pos h1]
  · rw [if_neg h1, if_neg h1]
    by_cases h2 : ((splitOnChar '.' content.data).map stripL).filter
        (fun s => s ≠ []) = []
    · rw [if_pos h2, if_pos h2]
    · rw [if_neg h2, if_neg h2]
      dsimp only
      set segs := ((splitOnChar '.' content.data).map stripL).filter
        (fun s => s ≠ []) with hsegs
      have hmem : ∀ u ∈ segs.take m, u ≠ [] ∧ ∃ t, u = stripL t := by
        intro u hu
        have hu2 := List.mem_of_mem_take hu
        rw [hsegs] at hu2
        rcases List.mem_filter.mp hu2 with ⟨humap, hune⟩
        obtain ⟨t, _, ht⟩ := List.mem_map.mp humap
        exact ⟨by simpa using hune, t, ht.symm⟩
      obtain ⟨s0, segs', hsegs'⟩ : ∃ s0 segs', segs = s0 :: segs' := by
        cases hs : segs with
        | nil => exact absurd hs h2
        | cons a b => exact ⟨a, b, rfl⟩
      have htake : segs.take m = s0 :: segs'.take (m - 1) := by
        rw [hsegs']
        exact List.take_cons hm
      have hs0 : s0 ∈ segs.take m := by rw [htake]; simp
      obtain ⟨hs0ne, t0, ht0⟩ := hmem s0 hs0
      obtain ⟨c0, s0', hc0⟩ : ∃ c0 s0', s0 = c0 :: s0' := by
        cases hs : s0 with
        | nil => exact absurd hs hs0ne
        | cons a b => exact ⟨a, b, rfl⟩
      have hc0ws : wsChar c0 = false := by
        rw [hc0] at ht0
        exact stripL_head_not_ws ht0.symm
      have hjoin_ne : joinSepL ['.', ' '] (segs.take m) ≠ [] := by
        rw [htake]
        exact joinSepL_ne_nil hs0ne _
      have hjoin_head : (joinSepL ['.', ' '] (segs.take m)).head? = some c0 := by
        rw [htake, joinSepL_head? _ hs0ne, hc0]
        rfl
      obtain ⟨dlast, hdlast⟩ :=
        Option.isSome_iff_exists.mp
          (List.getLast?_isSome.mpr (by rw [htake]; simp :
            segs.take m ≠ ([] : List (List Char))))
      obtain ⟨hdne, td, htd⟩ := hmem dlast (List.mem_of_mem_getLast? hdlast)
      obtain ⟨dl, hdl⟩ :=
        Option.isSome_iff_exists.mp (List.getLast?_isSome.mpr hdne)
      have hdlws : wsChar dl = false := by
        rw [htd] at hdl
        exact stripL_getLast_not_ws hdl
      have hjoin_last : (joinSepL ['.', ' '] (segs.take m)).getLast? = some dl := by
        rw [joinSepL_getLast? (segs.take m) dlast (by rw [htake]; simp)
          (fun u hu => (hmem u hu).1) hdlast]
        exact hdl
      have hstrip : stripL (joinSepL ['.', ' '] (segs.take m))
          = joinSepL ['.', ' '] (segs.take m) :=
        stripL_eq_self hjoin_head hc0ws hjoin_last hdlws
      rw [hstrip]
      set ans := joinSepL ['.', ' '] (segs.take m) with hans
      by_cases hdot : endsWithDot ans = true
      · rw [if_pos hdot]
        have : ¬ (ans ≠ [] ∧ ¬ endsWithDot ans = true) := by
          intro h
          exact h.2 hdot
        rw [if_neg this, if_pos hjoin_ne]
      · rw [if_neg hdot]
        have : ans ≠ [] ∧ ¬ endsWithDot ans = true := ⟨hjoin_ne, hdot⟩
        rw [if_pos this]
        have : ans ++ ['.'] ≠ [] := by simp
        rw [if_pos this]

/-- C3 (witness): the correspondence theorem applied at concrete
inputs. -/
theorem extract_answer_spec_correspondence_witness :
    extract_answer "A. B. C. D." 2 = extract_answer_spec_model "A. B. C. D." 2
    ∧ extract_answer "" 2 = "Information not available" :=
  ⟨extract_answer_spec_correspondence.1 "A. B. C. D." 2 (by decide),
   extract_answer_spec_correspondence.2.1⟩

/-- C4: `score_candidate` equals twice the question/title token-set
overlap plus the question/snippet token-set overlap, where tokens are
case-insensitive maximal alphanumeric runs; the score is a non-negative
integer, and the Paris/France example inequality holds. -/
theorem score_candidate_formula :
    (∀ (question title : String) (snippet : Option String),
      score_candidate question title snippet
        = 2 * ((tokenSet question) ∩ (tokenSet title)).card
          + ((tokenSet question) ∩ (tokenSet (snippet.getD ""))).card
      ∧ 0 ≤ score_candidate question title snippet)
    ∧ score_candidate "Paris France" "Paris" (some "city")
        > score_candidate "Paris France" "Unrelated" (some "nothing") :=
  ⟨fun _ _ _ => ⟨rfl, Nat.zero_le _⟩, by decide⟩

/-- C5: `plan_queries ""` is empty, and every plan has at most 3
candidates, no duplicates, only non-empty already-trimmed entries, and
is (in order) a sublist of the stripped raw candidate sequence, so
de-duplication preserves first-occurrence order. -/
theorem plan_queries_shape :
    plan_queries "" = []
    ∧ ∀ question : String,
        (plan_queries question).length ≤ 3
        ∧ (plan_queries question).Nodup
        ∧ (∀ c ∈ plan_queries question, c ≠ "" ∧ pyStrip c = c)
        ∧ List.Sublist (plan_queries question)
            ((planCandidates (pyStrip question)).map pyStrip) := by
  refine ⟨rfl, ?_⟩
  intro question
  unfold plan_queries
  by_cases h : pyStrip question = ""
  · rw [if_pos h]
    exact ⟨by simp, by simp, by simp, List.nil_sublist _⟩
  · rw [if_neg h]
    refine ⟨?_, ?_, ?_, ?_⟩
    · rw [List.length_take]
      omega
    · exact List.Nodup.sublist (List.take_sublist _ _)
        (dedupKeepFirst_nodup _ [])
    · intro c hc
      have hc2 := List.mem_of_mem_take hc
      obtain ⟨hne, t, _, ht⟩ := dedupKeepFirst_mem_props _ [] c hc2
      refine ⟨hne, ?_⟩
      rw [ht]
      exact pyStrip_idem t
    · exact List.Sublist.trans (List.take_sublist _ _)
        (dedupKeepFirst_sublist _ [])

/-- C5 (witness): the shape theorem applied at a concrete question. -/
theorem plan_queries_shape_witness :
    (plan_queries "Berlin").length ≤ 3
    ∧ (plan_queries "Berlin").Nodup
    ∧ ("Berlin" ≠ "" ∧ pyStrip "Berlin" = "Berlin") :=
  ⟨(plan_queries_shape.2 "Berlin").1,
   (plan_queries_shape.2 "Berlin").2.1,
   (plan_queries_shape.2 "Berlin").2.2.1 "Berlin" (by decide)⟩

/-- C8 (counterexample): a question whose only double-quoted substring
is whitespace.  The quoted-phrase candidate is stripped to the empty
string and dropped, so the first planned candidate is not the joined
quoted substrings, neither raw nor trimmed. -/
theorem plan_queries_quoted_head_counterexample :
    findQuoted (pyStrip "\" \" Hello") ≠ []
    ∧ (plan_queries "\" \" Hello").head?
        ≠ some (joinSpace ((findQuoted (pyStrip "\" \" Hello")).take 2))
    ∧ (plan_queries "\" \" Hello").head?
        ≠ some (pyStrip (joinSpace ((findQuoted (pyStrip "\" \" Hello")).take 2))) := by
  refine ⟨by decide, ?_, ?_⟩
  · intro h
    have := Option.some.inj h
    exact absurd (congrArg String.data this) (by decide)
  · intro h
    have := Option.some.inj h
    exact absurd (congrArg String.data this) (by decide)

/-- C8 (amended): when the question contains double-quoted substrings
and the first two of them, joined with a space and trimmed, are
non-empty, that joined quoted phrase is the planner's first
candidate. -/
theorem plan_queries_quoted_head (question : String)
    (hq : findQuoted (pyStrip question) ≠ [])
    (hne : pyStrip (joinSpace ((findQuoted (pyStrip question)).take 2)) ≠ "") :
    (plan_queries question).head?
      = some (pyStrip (joinSpace ((findQuoted (pyStrip question)).take 2))) := by
  have hq0 : pyStrip question ≠ "" := by
    intro h
    rw [h] at hq
    exact hq (by decide)
  unfold plan_queries
  rw [if_neg hq0]
  unfold planCandidates
  have hqe : (findQuoted (pyStrip question)).isEmpty = false := by
    cases h : findQuoted (pyStrip question) with
    | nil => exact absurd h hq
    | cons a b => rfl
  dsimp only
  rw [hqe]
  rw [if_neg Bool.false_ne_true]
  simp only [List.append_assoc, List.singleton_append, List.cons_append]
  unfold dedupKeepFirst
  dsimp only
  rw [pyStrip_idem (joinSpace ((findQuoted (pyStrip question)).take 2))]
  rw [if_pos ⟨hne, by simp⟩]
  rw [List.take_cons (by omega : (0 : Nat) < 3)]
  rfl

/-- C8 (witness): the claim's concrete instance — for
`"World War II" started in 1939` the first planned candidate is
`World War II` — via the amended theorem. -/
theorem plan_queries_quoted_head_witness :
    (plan_queries "\"World War II\" started in 1939").head? = some "World War II" := by
  rw [plan_queries_quoted_head "\"World War II\" started in 1939"
    (by decide) (by decide)]
  rfl

/-- C9 (counterexample): on a non-mapping record `get_question_text`
raises (`.get` on a non-dict) instead of returning the empty string. -/
theorem get_question_text_nondict_counterexample :
    get_question_text QRecord.nondict ≠ Except.ok ""
    ∧ get_question_text QRecord.nondict = Except.error "AttributeError" :=
  ⟨fun h => Except.noConfusion h, rfl⟩

/-- C9 (amended): on a mapping record whose values are strings,
`get_question_text` probes `input`, `question`, `prompt`, `query` in
that priority order, takes the first non-empty string, defaults to the
empty string, and trims surrounding whitespace; non-mapping records
instead raise. -/
theorem get_question_text_spec_correspondence (es : List (String × PyVal))
    (hstr : ∀ p ∈ es, ∃ s, p.2 = PyVal.pstr s) :
    get_question_text (QRecord.dict es)
      = Except.ok (question_text_spec_model es) := by
  have norm : ∀ k : String, ∃ s : String,
      pyOr (dictGet es k) (.pstr "") = .pstr s
      ∧ (match dictGet es k with
          | .pstr s2 => if s2 = "" then none else some s2
          | _ => (none : Option String))
        = (if s = "" then none else some s) := by
    intro k
    rcases dictGet_str_or_none hstr k with ⟨s, hs⟩ | hs
    · refine ⟨s, ?_, ?_⟩
      · rw [hs]
        unfold pyOr pyTruthy
        by_cases h : s = ""
        · subst h; simp
        · rw [if_pos (by simpa using h)]
      · rw [hs]
    · exact ⟨"", by rw [hs]; rfl, by rw [hs]; rfl⟩
  obtain ⟨s1, e1, f1⟩ := norm "input"
  obtain ⟨s2, e2, f2⟩ := norm "question"
  obtain ⟨s3, e3, f3⟩ := norm "prompt"
  obtain ⟨s4, e4, f4⟩ := norm "query"
  unfold get_question_text question_text_spec_model
  dsimp only
  rw [e1, e2, e3, e4]
  simp only [List.findSome?_cons]
  rw [f1, f2, f3, f4]
  by_cases c1 : s1 = "" <;> by_cases c2 : s2 = "" <;>
    by_cases c3 : s3 = "" <;> by_cases c4 : s4 = "" <;>
    simp [pyOr, pyTruthy, c1, c2, c3, c4]

/-- C9 (witness): the amended extraction theorem at a concrete record,
and the concrete trimmed value. -/
theorem get_question_text_spec_correspondence_witness :
    get_question_text (QRecord.dict [("prompt", PyVal.pstr " Hi ")])
      = Except.ok (question_text_spec_model [("prompt", PyVal.pstr " Hi ")])
    ∧ question_text_spec_model [("prompt", PyVal.pstr " Hi ")] = "Hi" := by
  refine ⟨get_question_text_spec_correspondence _ ?_, rfl⟩
  intro p hp
  rcases List.mem_singleton.mp hp with h
  rw [h]
  exact ⟨" Hi ", rfl⟩

/-- The planner applied to an already-stripped question plans the same
queries (stripping is idempotent). -/
theorem plan_queries_pyStrip (question : String) :
    plan_queries (pyStrip question) = plan_queries question := by
  unfold plan_queries
  rw [pyStrip_idem]

/-- C10: a question that is non-empty after trimming always yields at
least one candidate: the 12-word fallback is non-empty and appears in
the plan, so the plan is non-empty and the agent loop's candidate loop
searches at least one query, whatever the network does. -/
theorem plan_queries_fallback_nonempty (question : String)
    (hq : pyStrip question ≠ "") :
    shortQuery (pyStrip question) ≠ ""
    ∧ shortQuery (pyStrip question) ∈ plan_queries question
    ∧ plan_queries question ≠ []
    ∧ ∀ (httpS : String → Nat → Except String SearchData)
        (httpF : Int → Except String SummaryData),
        (loopSteps httpS httpF (pyStrip question)
          (plan_queries (pyStrip question))).2 ≠ [] := by
  have hdata : (pyStrip question).data = stripL question.data := rfl
  have hdne : stripL question.data ≠ [] := by
    intro h
    apply hq
    show String.mk (stripL question.data) = ""
    rw [h]
  obtain ⟨c, t, hct⟩ : ∃ c t, stripL question.data = c :: t := by
    cases h : stripL question.data with
    | nil => exact absurd h hdne
    | cons a b => exact ⟨a, b, rfl⟩
  have hcws : wsChar c = false := stripL_head_not_ws hct
  -- the word list of the stripped question is non-empty
  have hsplit_ne : splitWSAux [] (pyStrip question).data ≠ [] := by
    refine splitWSAux_ne_nil hcws _ [] ?_
    rw [hdata, hct]
    simp
  obtain ⟨u, us, hus⟩ : ∃ u us, splitWSAux [] (pyStrip question).data = u :: us := by
    cases h : splitWSAux [] (pyStrip question).data with
    | nil => exact absurd h hsplit_ne
    | cons a b => exact ⟨a, b, rfl⟩
  obtain ⟨hune, huws⟩ :=
    splitWSAux_words (pyStrip question).data [] (by simp) u (by rw [hus]; simp)
  obtain ⟨c0, u', hc0⟩ : ∃ c0 u', u = c0 :: u' := by
    cases h : u with
    | nil => exact absurd h hune
    | cons a b => exact ⟨a, b, rfl⟩
  have hjoin_core : ∀ rest : List (List Char),
      pyStrip (String.mk (joinSepL [' '] (u :: rest))) ≠ "" := by
    intro rest
    have hhead : (joinSepL [' '] (u :: rest)).head? = some c0 := by
      rw [joinSepL_head? rest hune]
      rw [hc0]
      rfl
    obtain ⟨j', hj'⟩ : ∃ j', joinSepL [' '] (u :: rest) = c0 :: j' := by
      cases h : joinSepL [' '] (u :: rest) with
      | nil => rw [h] at hhead; simp at hhead
      | cons a b =>
        rw [h] at hhead
        simp at hhead
        subst hhead
        exact ⟨b, rfl⟩
    refine pyStrip_ne_empty (c := c0) ?_ (huws c0 (by rw [hc0]; simp))
    show c0 ∈ joinSepL [' '] (u :: rest)
    rw [hj']
    simp
  have hshort : shortQuery (pyStrip question) ≠ "" := by
    unfold shortQuery pySplitWS joinSpace
    rw [hus]
    rw [List.map_cons, List.take_cons (by omega : (0 : Nat) < 12), List.map_cons]
    exact hjoin_core _
  have hmemplan : shortQuery (pyStrip question) ∈ plan_queries question := by
    unfold plan_queries
    rw [if_neg hq]
    have hmemcand : shortQuery (pyStrip question)
        ∈ planCandidates (pyStrip question) := by
      unfold planCandidates
      dsimp only
      exact List.mem_append.mpr (Or.inr (by simp))
    have hidem : pyStrip (shortQuery (pyStrip question))
        = shortQuery (pyStrip question) := pyStrip_idem _
    have := dedupKeepFirst_mem (planCandidates (pyStrip question)) []
      (shortQuery (pyStrip question)) hmemcand (by rw [hidem]; exact hshort)
    rcases this with h | h
    · rw [hidem] at h
      have hlen : (dedupKeepFirst (planCandidates (pyStrip question)) []).length ≤ 3 :=
        Nat.le_trans (dedupKeepFirst_length _ _) (planCandidates_length _)
      rw [List.take_of_length_le hlen]
      exact h
    · rw [hidem] at h
      simp at h
  refine ⟨hshort, hmemplan, List.ne_nil_of_mem hmemplan, ?_⟩
  intro httpS httpF
  refine loopSteps_trace_ne_nil ?_
  rw [plan_queries_pyStrip]
  exact List.ne_nil_of_mem hmemplan

/-- C10 (witness): the fallback theorem at a concrete question and
concrete (failing) network oracles. -/
theorem plan_queries_fallback_nonempty_witness :
    plan_queries "Hello world" ≠ []
    ∧ (loopSteps (fun _ _ => Except.error "down") (fun _ => Except.error "down")
        (pyStrip "Hello world") (plan_queries (pyStrip "Hello world"))).2 ≠ [] :=
  ⟨(plan_queries_fallback_nonempty "Hello world" (by decide)).2.2.1,
   (plan_queries_fallback_nonempty "Hello world" (by decide)).2.2.2 _ _⟩

/-- C2: the first candidate whose extracted answer is not the sentinel
is accepted: the loop stops there (its outcome and its searched-query
trace are `pre ++ [c]` whatever candidates follow, so no later candidate
is searched or can override), and the accepted answer is the final
Answer of `agent_loop` for any question planning those candidates. -/
theorem agent_loop_first_accept
    (httpS : String → Nat → Except String SearchData)
    (httpF : Int → Except String SummaryData)
    (q : String) (pre : List String) (c a : String)
    (hpre : ∀ p ∈ pre, tryCandidate httpS httpF q p = .ok none)
    (hc : tryCandidate httpS httpF q c = .ok (some a)) :
    ∀ post post' : List String,
      loopSteps httpS httpF q (pre ++ c :: post) = (.ok (some a), pre ++ [c])
      ∧ loopSteps httpS httpF q (pre ++ c :: post)
          = loopSteps httpS httpF q (pre ++ c :: post')
      ∧ ∀ question, pyStrip question = q →
          plan_queries q = pre ++ c :: post →
          agent_loop httpS httpF question = a := by
  intro post post'
  refine ⟨loopSteps_first_accept hpre hc post, ?_, ?_⟩
  · rw [loopSteps_first_accept hpre hc post,
      loopSteps_first_accept hpre hc post']
  · intro question hqs hplan
    have hq0 : q ≠ "" := by
      intro h
      rw [h] at hplan
      have : ([] : List String) = pre ++ c :: post := hplan
      exact absurd this.symm (by simp)
    unfold agent_loop agent_loop_body
    rw [hqs, if_neg hq0]
    dsimp only
    rw [hplan, loopSteps_first_accept hpre hc post]
    have hane : a ≠ "" := by
      obtain ⟨hsent, pid, hext⟩ := tryCandidate_ok_some hc
      rcases extract_answer_cases (get_wikipedia_summary httpF pid) 2 with h | h
      · rw [← hext] at h
        exact absurd h hsent
      · rw [← hext] at h
        exact h.1
    simp only [if_pos hane]

/-- C2 (witness): a concrete run in which the second candidate is
accepted, the searched trace stops there, and a later candidate list
makes no difference. -/
theorem agent_loop_first_accept_witness :
    loopSteps
        (fun q _ =>
          if q = "Berlin" then
            Except.ok ⟨some ⟨some [SearchItem.obj ⟨some "Berlin", some 1, some "city"⟩]⟩⟩
          else Except.ok ⟨some ⟨some []⟩⟩)
        (fun _ => Except.ok ⟨some ⟨some [⟨some "Berlin is big. It is old. Yes."⟩]⟩⟩)
        "Berlin" (["nothing"] ++ "Berlin" :: ["extra"])
      = (.ok (some "Berlin is big. It is old."), ["nothing"] ++ ["Berlin"])
    ∧ agent_loop
        (fun q _ =>
          if q = "Berlin" then
            Except.ok ⟨some ⟨some [SearchItem.obj ⟨some "Berlin", some 1, some "city"⟩]⟩⟩
          else Except.ok ⟨some ⟨some []⟩⟩)
        (fun _ => Except.ok ⟨some ⟨some [⟨some "Berlin is big. It is old. Yes."⟩]⟩⟩)
        "Berlin" = "Berlin is big. It is old." := by
  have h := agent_loop_first_accept
    (fun q _ =>
      if q = "Berlin" then
        Except.ok ⟨some ⟨some [SearchItem.obj ⟨some "Berlin", some 1, some "city"⟩]⟩⟩
      else Except.ok ⟨some ⟨some []⟩⟩)
    (fun _ => Except.ok ⟨some ⟨some [⟨some "Berlin is big. It is old. Yes."⟩]⟩⟩)
    "Berlin" ["nothing"] "Berlin" "Berlin is big. It is old."
    (by
      intro p hp
      rcases List.mem_singleton.mp hp with h
      subst h
      rfl)
    rfl ["extra"] []
  have h2 := agent_loop_first_accept
    (fun q _ =>
      if q = "Berlin" then
        Except.ok ⟨some ⟨some [SearchItem.obj ⟨some "Berlin", some 1, some "city"⟩]⟩⟩
      else Except.ok ⟨some ⟨some []⟩⟩)
    (fun _ => Except.ok ⟨some ⟨some [⟨some "Berlin is big. It is old. Yes."⟩]⟩⟩)
    "Berlin" [] "Berlin" "Berlin is big. It is old."
    (by intro p hp; simp at hp)
    rfl [] []
  exact ⟨h.1, h2.2.2 "Berlin" rfl rfl⟩

/-- C6: the agent loop's re-ranking of well-formed search results sorts
by relevance score descending, is a permutation of the arrivals, and is
stable — for every score value the results having that score keep their
arrival order. -/
theorem rankResults_sorted_stable (q : String) (rs : List SearchResult) :
    rankResults q (rs.map SearchItem.obj) = .ok (pySortDesc (scoreKey q) rs)
    ∧ List.Perm (pySortDesc (scoreKey q) rs) rs
    ∧ List.Pairwise (fun a b => scoreKey q b ≤ scoreKey q a)
        (pySortDesc (scoreKey q) rs)
    ∧ ∀ v, (pySortDesc (scoreKey q) rs).filter (fun r => scoreKey q r == v)
        = rs.filter (fun r => scoreKey q r == v) := by
  refine ⟨?_, pySortDesc_perm _ rs, pySortDesc_pairwise _ rs,
    fun v => pySortDesc_filter _ v rs⟩
  unfold rankResults
  rw [mapM_getFields_obj]

/-- C7: a failing search transport yields the empty result list rather
than an exception, and when every candidate's search yields the empty
list the agent loop answers with the "Information not available"
sentinel, not the error sentinel. -/
theorem search_failure_recovery :
    (∀ (http : String → Nat → Except String SearchData) (q : String)
        (lim : Nat) (e : String),
        http q lim = .error e → search_wikipedia http q lim = [])
    ∧ ∀ (httpS : String → Nat → Except String SearchData)
        (httpF : Int → Except String SummaryData) (question : String),
        (∀ c, search_wikipedia httpS c 6 = []) →
        agent_loop httpS httpF question = "Information not available" := by
  constructor
  · intro http q lim e h
    unfold search_wikipedia
    rw [h]
  · intro httpS httpF question hS
    unfold agent_loop agent_loop_body
    by_cases hq : pyStrip question = ""
    · rw [if_pos hq]
    · rw [if_neg hq]
      dsimp only
      rw [loopSteps_all_empty hS _]

/-- C7 (witness): the recovery theorem at a concrete always-failing
transport. -/
theorem search_failure_recovery_witness :
    search_wikipedia (fun _ _ => Except.error "timeout") "Paris" 6 = []
    ∧ agent_loop (fun _ _ => Except.error "timeout")
        (fun _ => Except.error "timeout") "Who wrote Hamlet"
        = "Information not available" :=
  ⟨search_failure_recovery.1 _ "Paris" 6 "timeout" rfl,
   search_failure_recovery.2 _ _ "Who wrote Hamlet"
     (fun c => search_failure_recovery.1 _ c 6 "timeout" rfl)⟩

/-- C1: `agent_loop` always returns a non-empty string that is one of
the two sentinels or a period-terminated extraction of some fetched
summary, and an exception escaping the loop body is converted to the
"Error processing question" sentinel. -/
theorem agent_loop_output_spec
    (httpS : String → Nat → Except String SearchData)
    (httpF : Int → Except String SummaryData) (question : String) :
    agent_loop httpS httpF question ≠ ""
    ∧ (agent_loop httpS httpF question = "Information not available"
        ∨ agent_loop httpS httpF question = "Error processing question"
        ∨ (endsWithDot (agent_loop httpS httpF question).data = true
            ∧ ∃ pid, agent_loop httpS httpF question
                = extract_answer (get_wikipedia_summary httpF pid) 2))
    ∧ ((agent_loop_body httpS httpF question).isOk = false →
        agent_loop httpS httpF question = "Error processing question") := by
  unfold agent_loop
  cases hb : agent_loop_body httpS httpF question with
  | error e =>
    refine ⟨?_, Or.inr (Or.inl rfl), fun _ => rfl⟩
    show "Error processing question" ≠ ""
    decide
  | ok ans =>
    have hans : ans = "Information not available"
        ∨ (ans ≠ ""
            ∧ endsWithDot ans.data = true
            ∧ ∃ pid, ans = extract_answer (get_wikipedia_summary httpF pid) 2) := by
      unfold agent_loop_body at hb
      by_cases hq : pyStrip question = ""
      · rw [if_pos hq] at hb
        left
        exact (Except.ok.inj hb).symm
      · rw [if_neg hq] at hb
        dsimp only at hb
        cases hl : (loopSteps httpS httpF (pyStrip question)
            (plan_queries (pyStrip question))).1 with
        | error e => rw [hl] at hb; exact absurd hb (by simp)
        | ok o =>
          rw [hl] at hb
          cases o with
          | none =>
            left
            exact (Except.ok.inj hb).symm
          | some a =>
            obtain ⟨hsent, pid, hext⟩ := loopSteps_ok_some hl
            have hane : a ≠ "" := by
              rcases extract_answer_cases (get_wikipedia_summary httpF pid) 2
                with h | h
              · rw [← hext] at h; exact absurd h hsent
              · rw [← hext] at h; exact h.1
            have hdot : endsWithDot a.data = true := by
              rcases extract_answer_cases (get_wikipedia_summary httpF pid) 2
                with h | h
              · rw [← hext] at h; exact absurd h hsent
              · rw [← hext] at h; exact h.2
            simp only at hb
            rw [if_pos hane] at hb
            right
            have : ans = a := (Except.ok.inj hb).symm
            subst this
            exact ⟨hane, hdot, pid, hext⟩
    refine ⟨?_, ?_, ?_⟩
    · show ans ≠ ""
      rcases hans with h | h
      · rw [h]; decide
      · exact h.1
    · show ans = _ ∨ ans = _ ∨ endsWithDot ans.data = true ∧ _
      rcases hans with h | h
      · exact Or.inl h
      · exact Or.inr (Or.inr ⟨h.2.1, h.2.2⟩)
    · intro h
      simp [Except.isOk, Except.toBool] at h

/-- C1 (witness): the output theorem at concrete oracles, including one
whose malformed search payload makes the body raise and the loop answer
with the error sentinel. -/
theorem agent_loop_output_spec_witness :
    agent_loop (fun _ _ => Except.error "down") (fun _ => Except.error "down")
        "Paris" ≠ ""
    ∧ agent_loop (fun _ _ => Except.ok ⟨some ⟨some [SearchItem.other]⟩⟩)
        (fun _ => Except.error "down") "Paris" = "Error processing question" :=
  ⟨(agent_loop_output_spec (fun _ _ => Except.error "down")
      (fun _ => Except.error "down") "Paris").1,
   (agent_loop_output_spec (fun _ _ => Except.ok ⟨some ⟨some [SearchItem.other]⟩⟩)
      (fun _ => Except.error "down") "Paris").2.2 rfl⟩

end QAAgent
